import Mathlib

/-!
Verification of the opportunity-discovery pipeline of the Marketing-scraper
repository: deduplicating post storage, retry with exponential backoff,
scraper heartbeats, relevance classification fan-out, keyword-suggestion
consensus, and business-slug generation.  Each Python function named in the
claims is shallowly embedded as an executable Lean definition; database
tables are lists of rows, timestamps are naturals, and remote calls are
abstracted as oracles describing their outcomes.
-/

namespace MarketingScraper

/-! ### Posts and the deduplicating ingest store (src/scrapers/base_scraper.py) -/

/-- A row of the `posts` table created by `init_database` in src/init_db.py.
The `source_id` column carries the UNIQUE constraint. -/
structure Post where
  source : String
  source_id : String
  url : Option String
  title : Option String
  body : Option String
  author : Option String
  subreddit : Option String
  created_at : Option Nat
deriving DecidableEq

/-- Embedding of `post_exists` from src/scrapers/base_scraper.py: probe the
posts table for a row with the given `source_id` (the source column is not
consulted). -/
def post_exists (posts : List Post) (source_id : String) : Bool :=
  posts.any (fun p => p.source_id = source_id)

/-- Embedding of `insert_post` from src/scrapers/base_scraper.py: a no-op
returning `false` when `post_exists` finds the `source_id`, otherwise the row
is appended and `true` is returned.  The result is the updated table paired
with the returned Boolean. -/
def insert_post (posts : List Post) (p : Post) : List Post × Bool :=
  if post_exists posts p.source_id then (posts, false)
  else (posts ++ [p], true)

/-- Helper to build a post with only the dedup-relevant fields populated. -/
def mkPost (source source_id : String) : Post :=
  ⟨source, source_id, none, none, none, none, none, none⟩

/-! ### Retry with exponential backoff (src/scrapers/base_scraper.py) -/

/-- Embedding of the attempt loop inside `retry_with_backoff`.  The fallible
operation is an oracle from the attempt index to an `Except` outcome.  The
first component is `some` of the final outcome (`none` only when zero
attempts were allowed, where the Python code would raise `None`); the second
component is the list of sleep durations performed, in order. -/
def retryFrom {E A : Type} (op : Nat → Except E A) (base : Nat) :
    Nat → Nat → Option (Except E A) × List Nat
  | _, 0 => (none, [])
  | attempt, remaining + 1 =>
    match op attempt with
    | .ok a => (some (.ok a), [])
    | .error e =>
      if remaining = 0 then (some (.error e), [])
      else
        let rest := retryFrom op base (attempt + 1) remaining
        (rest.1, base * 2 ^ attempt :: rest.2)

/-- Embedding of `retry_with_backoff` from src/scrapers/base_scraper.py:
run the attempt loop starting from attempt 0 with `max_retries` attempts. -/
def retry_with_backoff {E A : Type} (op : Nat → Except E A)
    (max_retries base_delay : Nat) : Option (Except E A) × List Nat :=
  retryFrom op base_delay 0 max_retries

theorem retryFrom_succ_eq {E A : Type} (op : Nat → Except E A) (base att r : Nat) :
    retryFrom op base att (r + 1) =
      match op att with
      | .ok a => (some (.ok a), [])
      | .error e =>
        if r = 0 then (some (.error e), [])
        else
          ((retryFrom op base (att + 1) r).1,
            base * 2 ^ att :: (retryFrom op base (att + 1) r).2) := rfl

theorem retryFrom_ok {E A : Type} (op : Nat → Except E A) (base : Nat) :
    ∀ (k : Nat) (att r : Nat) (a : A), k < r →
    (∀ i, i < k → ∃ e, op (att + i) = .error e) →
    op (att + k) = .ok a →
    retryFrom op base att r =
      (some (.ok a), (List.range k).map (fun i => base * 2 ^ (att + i)))
  | 0, att, r, a, hk, _, hok => by
    obtain ⟨r', rfl⟩ : ∃ r', r = r' + 1 := ⟨r - 1, by omega⟩
    rw [retryFrom_succ_eq]
    rw [show att + 0 = att from rfl] at hok
    rw [hok]
    simp
  | k + 1, att, r, a, hk, hfail, hok => by
    obtain ⟨r', rfl⟩ : ∃ r', r = r' + 1 := ⟨r - 1, by omega⟩
    obtain ⟨e, he⟩ := hfail 0 (by omega)
    rw [retryFrom_succ_eq]
    rw [show att + 0 = att from rfl] at he
    rw [he]
    dsimp only
    have hr' : r' ≠ 0 := by omega
    rw [if_neg hr']
    have ih := retryFrom_ok op base k (att + 1) r' a (by omega)
      (fun i hi => by
        obtain ⟨e', he'⟩ := hfail (i + 1) (by omega)
        exact ⟨e', by rw [← he']; ring_nf⟩)
      (by rw [← hok]; ring_nf)
    rw [ih]
    simp only [Prod.mk.injEq, true_and]
    rw [List.range_succ_eq_map]
    simp only [List.map_cons, List.map_map, Nat.add_zero]
    congr 1
    apply List.map_congr_left
    intro i _
    simp only [Function.comp_apply, Nat.succ_eq_add_one]
    ring_nf

theorem retryFrom_all_fail {E A : Type} (op : Nat → Except E A) (base : Nat) :
    ∀ (r att : Nat) (e : E), 1 ≤ r →
    (∀ i, i < r → ∃ e', op (att + i) = .error e') →
    op (att + (r - 1)) = .error e →
    retryFrom op base att r =
      (some (.error e), (List.range (r - 1)).map (fun i => base * 2 ^ (att + i)))
  | 0, _, _, hr, _, _ => by omega
  | 1, att, e, _, _, hlast => by
    rw [retryFrom_succ_eq]
    rw [show att + (1 - 1) = att from rfl] at hlast
    rw [hlast]
    simp
  | r + 2, att, e, _, hfail, hlast => by
    obtain ⟨e0, he0⟩ := hfail 0 (by omega)
    rw [retryFrom_succ_eq]
    rw [show att + 0 = att from rfl] at he0
    rw [he0]
    dsimp only
    rw [if_neg (Nat.succ_ne_zero r)]
    have ih := retryFrom_all_fail op base (r + 1) (att + 1) e (by omega)
      (fun i hi => by
        obtain ⟨e', he'⟩ := hfail (i + 1) (by omega)
        exact ⟨e', by rw [← he']; ring_nf⟩)
      (by rw [← hlast]; congr 1; omega)
    rw [ih]
    simp only [Prod.mk.injEq, true_and]
    rw [show r + 2 - 1 = (r + 1 - 1) + 1 from by omega]
    rw [List.range_succ_eq_map]
    simp only [List.map_cons, List.map_map, Nat.add_zero]
    congr 1
    apply List.map_congr_left
    intro i _
    simp only [Function.comp_apply, Nat.succ_eq_add_one]
    ring_nf

/-! ### Claim C1: deduplicating insert -/

/-- C1 counterexample.  The claim keys deduplication on the pair
(source, source-native id), but the code keys it on the source-native id
alone: after storing a reddit post with id x1, inserting a twitter post with
the same id x1 returns `false` and stores nothing, even though no stored
post has the pair (twitter, x1). -/
theorem c1_pair_key_counterexample :
    (insert_post [] (mkPost "reddit" "x1")).1 = [mkPost "reddit" "x1"] ∧
    (mkPost "twitter" "x1").source ≠ (mkPost "reddit" "x1").source ∧
    (mkPost "twitter" "x1").source_id = (mkPost "reddit" "x1").source_id ∧
    (insert_post [mkPost "reddit" "x1"] (mkPost "twitter" "x1")).2 = false ∧
    (insert_post [mkPost "reddit" "x1"] (mkPost "twitter" "x1")).1
      = [mkPost "reddit" "x1"] := by
  decide

/-- C1 (amended): `insert_post` returns true exactly when the post was newly
stored and false when a post with the same source-native id (regardless of
source) already exists; inserting the same (source, source-native id) twice
leaves exactly one stored row for that id and the second call returns false,
and uniqueness of `source_id` is preserved by every insert. -/
theorem c1_insert_dedup (posts : List Post) (p q : Post)
    (hpq : q.source_id = p.source_id)
    (hnew : post_exists posts p.source_id = false) :
    (insert_post posts p).2 = true ∧
    (insert_post (insert_post posts p).1 q).2 = false ∧
    (insert_post (insert_post posts p).1 q).1 = (insert_post posts p).1 ∧
    ((insert_post posts p).1.filter
      (fun r => r.source_id = p.source_id)).length = 1 ∧
    (∀ (table : List Post) (r : Post),
      ((insert_post table r).2 = true ↔ post_exists table r.source_id = false)) ∧
    (∀ (table : List Post) (r : Post),
      (table.map (fun x => x.source_id)).Nodup →
      ((insert_post table r).1.map (fun x => x.source_id)).Nodup) := by
  have hall : ∀ x ∈ posts, ¬(x.source_id = p.source_id) := by
    intro x hx heq
    have hex : post_exists posts p.source_id = true := by
      simp only [post_exists, List.any_eq_true]
      exact ⟨x, hx, by simp [heq]⟩
    rw [hex] at hnew
    simp at hnew
  have hfirst : insert_post posts p = (posts ++ [p], true) := by
    simp [insert_post, hnew]
  have hdup : post_exists (posts ++ [p]) q.source_id = true := by
    simp [post_exists, List.any_append, hpq]
  refine ⟨by rw [hfirst], ?_, ?_, ?_, ?_, ?_⟩
  · rw [hfirst]
    simp [insert_post, hdup]
  · rw [hfirst]
    simp [insert_post, hdup]
  · rw [hfirst]
    simp only [List.filter_append, List.length_append]
    have h1 : posts.filter (fun r => decide (r.source_id = p.source_id)) = [] := by
      rw [List.filter_eq_nil_iff]
      intro x hx
      simpa using hall x hx
    rw [h1]
    simp
  · intro table r
    by_cases h : post_exists table r.source_id = true
    · simp [insert_post, h]
    · simp only [Bool.not_eq_true] at h
      simp [insert_post, h]
  · intro table r hnd
    by_cases h : post_exists table r.source_id = true
    · simpa [insert_post, h] using hnd
    · simp only [Bool.not_eq_true] at h
      have hnotin : r.source_id ∉ table.map (fun x => x.source_id) := by
        intro hmem
        obtain ⟨x, hx, hxid⟩ := List.mem_map.1 hmem
        have hex : post_exists table r.source_id = true := by
          simp only [post_exists, List.any_eq_true]
          exact ⟨x, hx, by simp [hxid]⟩
        rw [hex] at h
        simp at h
      simp only [insert_post, h, Bool.false_eq_true, if_false, List.map_append,
        List.map_cons, List.map_nil]
      rw [List.nodup_append]
      exact ⟨hnd, List.nodup_singleton _, by simpa using hnotin⟩

/-- Witness for C1: concrete instantiation of the amended dedup contract. -/
theorem c1_insert_dedup_witness :
    (mkPost "reddit" "a1").source_id = (mkPost "reddit" "a1").source_id ∧
    post_exists [] (mkPost "reddit" "a1").source_id = false ∧
    (insert_post [] (mkPost "reddit" "a1")).2 = true ∧
    (insert_post (insert_post [] (mkPost "reddit" "a1")).1
      (mkPost "reddit" "a1")).2 = false :=
  ⟨rfl, by decide,
    (c1_insert_dedup [] (mkPost "reddit" "a1") (mkPost "reddit" "a1") rfl
      (by decide)).1,
    (c1_insert_dedup [] (mkPost "reddit" "a1") (mkPost "reddit" "a1") rfl
      (by decide)).2.1⟩

/-! ### Claim C3: retry with exponential backoff -/

/-- C3: each failed attempt i is followed by a sleep of `base_delay * 2 ^ i`
before the next attempt; an operation failing on the first two attempts and
succeeding on the third under `max_retries = 3`, `base_delay = 2` sleeps 2
then 4 and returns the success; an operation failing on all m attempts
sleeps exactly m - 1 times and propagates the last failure. -/
theorem c3_retry_backoff :
    (∀ {E A : Type} (op : Nat → Except E A) (m d k : Nat) (a : A),
      k < m →
      (∀ i, i < k → ∃ e, op i = .error e) →
      op k = .ok a →
      retry_with_backoff op m d =
        (some (.ok a), (List.range k).map (fun i => d * 2 ^ i))) ∧
    (retry_with_backoff
        (fun n => if n < 2 then Except.error "boom" else Except.ok (42 : Nat)) 3 2
      = (some (Except.ok 42), [2, 4])) ∧
    (∀ {E A : Type} (op : Nat → Except E A) (m d : Nat) (e : E),
      1 ≤ m →
      (∀ i, i < m → ∃ e', op i = .error e') →
      op (m - 1) = .error e →
      retry_with_backoff op m d =
        (some (.error e), (List.range (m - 1)).map (fun i => d * 2 ^ i)) ∧
      (retry_with_backoff op m d).2.length = m - 1) := by
  refine ⟨?_, ?_, ?_⟩
  · intro E A op m d k a hk hfail hok
    have h := retryFrom_ok op d k 0 m a hk
      (fun i hi => by simpa using hfail i hi) (by simpa using hok)
    simpa [retry_with_backoff] using h
  · rfl
  · intro E A op m d e hm hfail hlast
    have h := retryFrom_all_fail op d m 0 e hm
      (fun i hi => by simpa using hfail i hi) (by simpa using hlast)
    have h2 : retry_with_backoff op m d =
        (some (.error e), (List.range (m - 1)).map (fun i => d * 2 ^ i)) := by
      simpa [retry_with_backoff] using h
    exact ⟨h2, by rw [h2]; simp⟩

/-- Witness for C3: the backoff contract applied to an operation that always
fails with two attempts, base delay 3: one sleep of 3, error propagated. -/
theorem c3_retry_backoff_witness :
    (1 : Nat) ≤ 2 ∧
    retry_with_backoff (fun _ : Nat => (Except.error "down" : Except String Nat)) 2 3 =
      (some (Except.error "down"), [3]) :=
  ⟨by decide, by
    have h := (c3_retry_backoff.2.2
      (fun _ : Nat => (Except.error "down" : Except String Nat)) 2 3 "down"
      (by decide) (fun i _ => ⟨"down", rfl⟩) rfl).1
    simpa using h⟩

/-! ### Heartbeats (src/scrapers/base_scraper.py, src/init_db.py) -/

/-- A row of the `heartbeats` table; `scraper_name` carries the UNIQUE
constraint, `last_success` and `last_error` are nullable, and `posts_found`
defaults to 0. -/
structure HeartbeatRow where
  scraper_name : String
  last_success : Option Nat
  last_error : Option String
  posts_found : Nat
deriving DecidableEq

/-- The error text stored by `update_heartbeat`: the given message when it is
truthy, otherwise the literal `Unknown error`. -/
def heartbeatErrorText (error : Option String) : String :=
  match error with
  | some s => if s = "" then "Unknown error" else s
  | none => "Unknown error"

/-- Embedding of `update_heartbeat` from src/scrapers/base_scraper.py: an
SQLite upsert keyed by `scraper_name`.  On success the row gets the current
time as `last_success`, a cleared `last_error`, and the post count; on
failure only `last_error` is written (a fresh row then has no
`last_success` and the default post count 0). -/
def update_heartbeat (table : List HeartbeatRow) (name : String) (success : Bool)
    (error : Option String) (posts_found : Nat) (now : Nat) : List HeartbeatRow :=
  if success then
    if table.any (fun r => r.scraper_name = name) then
      table.map (fun r => if r.scraper_name = name then
        { r with last_success := some now, last_error := none,
                 posts_found := posts_found }
        else r)
    else table ++ [⟨name, some now, none, posts_found⟩]
  else
    if table.any (fun r => r.scraper_name = name) then
      table.map (fun r => if r.scraper_name = name then
        { r with last_error := some (heartbeatErrorText error) } else r)
    else table ++ [⟨name, none, some (heartbeatErrorText error), 0⟩]

theorem heartbeat_name_not_mem (table : List HeartbeatRow) (name : String)
    (h : table.any (fun r => r.scraper_name = name) = false) :
    name ∉ table.map (fun r => r.scraper_name) := by
  intro hmem
  obtain ⟨x, hx, hxid⟩ := List.mem_map.1 hmem
  have hex : table.any (fun r => r.scraper_name = name) = true := by
    simp only [List.any_eq_true]
    exact ⟨x, hx, by simp [hxid]⟩
  rw [hex] at h
  simp at h

/-! ### Claim C8: heartbeat upsert semantics -/

/-- C8: the heartbeat store keeps at most one row per adapter name (upsert
keyed by name, preserving name uniqueness); a success call sets last-success
to the current time, clears last-error and sets the post count; a failure
call sets last-error while leaving every last-success and post count
unchanged. -/
theorem c8_heartbeat_upsert :
    (∀ (table : List HeartbeatRow) (name : String) (success : Bool)
        (error : Option String) (pf now : Nat),
      (table.map (fun r => r.scraper_name)).Nodup →
      ((update_heartbeat table name success error pf now).map
        (fun r => r.scraper_name)).Nodup) ∧
    (∀ (table : List HeartbeatRow) (name : String) (error : Option String)
        (pf now : Nat) (r : HeartbeatRow),
      r ∈ update_heartbeat table name true error pf now →
      r.scraper_name = name →
      r = ⟨name, some now, none, pf⟩) ∧
    (∀ (table : List HeartbeatRow) (name : String) (error : Option String)
        (pf now : Nat),
      (update_heartbeat table name false error pf now).map
        (fun r => (r.scraper_name, r.last_success, r.posts_found)) =
      (if table.any (fun r => r.scraper_name = name) then
        table.map (fun r => (r.scraper_name, r.last_success, r.posts_found))
      else
        table.map (fun r => (r.scraper_name, r.last_success, r.posts_found))
          ++ [(name, none, 0)])) ∧
    (∀ (table : List HeartbeatRow) (name : String) (error : Option String)
        (pf now : Nat) (r : HeartbeatRow),
      r ∈ update_heartbeat table name false error pf now →
      r.scraper_name = name →
      r.last_error = some (heartbeatErrorText error)) := by
  refine ⟨?_, ?_, ?_, ?_⟩
  · intro table name success error pf now hnd
    have hmap : ∀ (f : HeartbeatRow → HeartbeatRow),
        (∀ r, (f r).scraper_name = r.scraper_name) →
        ((table.map f).map (fun r => r.scraper_name)).Nodup := by
      intro f hf
      rw [List.map_map]
      have hco : ((fun r : HeartbeatRow => r.scraper_name) ∘ f)
          = fun r : HeartbeatRow => r.scraper_name := funext fun r => hf r
      rw [hco]
      exact hnd
    have happend : ∀ (x : HeartbeatRow), x.scraper_name = name →
        table.any (fun r => r.scraper_name = name) = false →
        ((table ++ [x]).map (fun r => r.scraper_name)).Nodup := by
      intro x hx hfalse
      rw [List.map_append, List.nodup_append]
      refine ⟨hnd, by simp, ?_⟩
      intro a ha hb
      simp only [List.map_cons, List.map_nil, List.mem_singleton] at hb
      rw [hb, hx] at ha
      exact heartbeat_name_not_mem table name hfalse ha
    cases success
    · unfold update_heartbeat
      rw [if_neg (by simp)]
      by_cases h : table.any (fun r => r.scraper_name = name) = true
      · rw [if_pos h]
        exact hmap _ (fun r => by split <;> rfl)
      · rw [if_neg h]
        exact happend _ rfl (by simpa using h)
    · unfold update_heartbeat
      rw [if_pos rfl]
      by_cases h : table.any (fun r => r.scraper_name = name) = true
      · rw [if_pos h]
        exact hmap _ (fun r => by split <;> rfl)
      · rw [if_neg h]
        exact happend _ rfl (by simpa using h)
  · intro table name error pf now r hr hname
    unfold update_heartbeat at hr
    rw [if_pos rfl] at hr
    by_cases h : table.any (fun rr => rr.scraper_name = name) = true
    · rw [if_pos h] at hr
      obtain ⟨x, _, hx⟩ := List.mem_map.1 hr
      by_cases hxn : x.scraper_name = name
      · rw [if_pos hxn] at hx
        rw [← hx]
        simp [hxn]
      · rw [if_neg hxn] at hx
        rw [← hx] at hname
        exact absurd hname hxn
    · rw [if_neg h] at hr
      rcases List.mem_append.1 hr with hmem | hmem
      · exfalso
        exact heartbeat_name_not_mem table name (by simpa using h)
          (hname ▸ List.mem_map_of_mem (fun rr => rr.scraper_name) hmem)
      · simpa using hmem
  · intro table name error pf now
    unfold update_heartbeat
    rw [if_neg (by simp)]
    by_cases h : table.any (fun rr => rr.scraper_name = name) = true
    · rw [if_pos h, if_pos h, List.map_map]
      apply List.map_congr_left
      intro x _
      simp only [Function.comp_apply]
      split <;> rfl
    · rw [if_neg h, if_neg h, List.map_append]
      simp
  · intro table name error pf now r hr hname
    unfold update_heartbeat at hr
    rw [if_neg (by simp)] at hr
    by_cases h : table.any (fun rr => rr.scraper_name = name) = true
    · rw [if_pos h] at hr
      obtain ⟨x, _, hx⟩ := List.mem_map.1 hr
      by_cases hxn : x.scraper_name = name
      · rw [if_pos hxn] at hx
        rw [← hx]
      · rw [if_neg hxn] at hx
        rw [← hx] at hname
        exact absurd hname hxn
    · rw [if_neg h] at hr
      rcases List.mem_append.1 hr with hmem | hmem
      · exfalso
        exact heartbeat_name_not_mem table name (by simpa using h)
          (hname ▸ List.mem_map_of_mem (fun rr => rr.scraper_name) hmem)
      · rw [List.mem_singleton] at hmem
        rw [hmem]

/-- Witness for C8: a success call then a failure call for the same adapter
leave one row that keeps the success timestamp and records the error. -/
theorem c8_heartbeat_upsert_witness :
    (([] : List HeartbeatRow).map (fun r => r.scraper_name)).Nodup ∧
    ((update_heartbeat [] "reddit" true none 7 100).map
      (fun r => r.scraper_name)).Nodup ∧
    (update_heartbeat (update_heartbeat [] "reddit" true none 7 100)
        "reddit" false (some "rate limited") 0 200).map
      (fun r => (r.scraper_name, r.last_success, r.posts_found)) =
      [("reddit", some 100, 7)] :=
  ⟨by decide,
   c8_heartbeat_upsert.1 [] "reddit" true none 7 100 (by decide),
   by
    have h := (c8_heartbeat_upsert.2.2.1)
      (update_heartbeat [] "reddit" true none 7 100)
      "reddit" (some "rate limited") 0 200
    rw [h]
    decide⟩

/-! ### Relevance classifier (src/processing/classifier.py) -/

/-- An active business row as selected by `get_active_businesses`. -/
structure Business where
  id : Nat
  name : String
  slug : String
  domain : Option String
  description : Option String
deriving DecidableEq

/-- The parsed JSON verdict returned by the classification model (the
`reasoning` field is never persisted and is omitted). -/
structure Classification where
  relevant_to : List String
  relevance_score : Option Int
  post_type : Option String
  pain_score : Option Int
  urgency : Option String
  keywords_found : List String
  competitor_mentioned : Option String
  suggested_response : Option String
deriving DecidableEq

/-- A row of the `posts` table as read by `get_unanalyzed_posts`. -/
structure PostRow where
  id : Nat
  source : String
  title : Option String
  body : Option String
  author : Option String
  subreddit : Option String
  url : Option String
  scraped_at : Nat
deriving DecidableEq

/-- A row of the `analysis` table. -/
structure AnalysisRow where
  post_id : Nat
  business_id : Nat
  relevance_score : Option Int
  post_type : Option String
  pain_score : Option Int
  urgency : Option String
  keywords_matched : List String
  competitor_mentioned : Option String
  suggested_response : Option String
  status : String
  analyzed_at : Nat
deriving DecidableEq

/-- Embedding of `save_analysis` from src/processing/classifier.py: the
single row inserted for one post, one business and one classification,
with status `new`. -/
def save_analysis (post_id business_id : Nat) (c : Classification) (now : Nat) :
    AnalysisRow :=
  ⟨post_id, business_id, c.relevance_score, c.post_type, c.pain_score,
   c.urgency, c.keywords_found, c.competitor_mentioned, c.suggested_response,
   "new", now⟩

/-- Embedding of the `business_map` dict comprehension in `classify_posts`:
slug-to-id lookup where a later business with a duplicate slug overwrites an
earlier one. -/
def business_map (businesses : List Business) (slug : String) : Option Nat :=
  (businesses.reverse.find? (fun b => b.slug = slug)).map (fun b => b.id)

/-- Embedding of `get_unanalyzed_posts`: posts with no analysis row, most
recently scraped first, limited to the batch size. -/
def get_unanalyzed_posts (posts : List PostRow) (analysis : List AnalysisRow)
    (limit : Nat) : List PostRow :=
  (List.insertionSort (fun p q : PostRow => q.scraped_at ≤ p.scraped_at)
    (posts.filter (fun p => !(analysis.any (fun a => a.post_id = p.id))))).take limit

/-- The analysis rows written for one post by the body of the
`classify_posts` loop: one row per named slug that maps to an active
business, or a single row against the first-listed business when the
verdict names no business. -/
def classify_one (businesses : List Business) (now : Nat) (p : PostRow)
    (c : Classification) : List AnalysisRow :=
  if c.relevant_to.isEmpty then
    match businesses with
    | [] => []
    | b :: _ => [save_analysis p.id b.id c now]
  else
    c.relevant_to.filterMap (fun slug =>
      (business_map businesses slug).map (fun bid => save_analysis p.id bid c now))

/-- One step of the `classify_posts` loop: a post whose classification
failed (oracle `none`) is skipped; otherwise its rows are appended and the
classified count is incremented. -/
def classifyStep (businesses : List Business)
    (oracle : PostRow → Option Classification) (now : Nat)
    (acc : List AnalysisRow × Nat) (p : PostRow) : List AnalysisRow × Nat :=
  match oracle p with
  | none => acc
  | some c => (acc.1 ++ classify_one businesses now p c, acc.2 + 1)

/-- Embedding of `classify_posts` from src/processing/classifier.py applied
to an already-fetched batch of posts.  The outcome of `classify_post` (the
remote model call plus JSON extraction) is abstracted as an oracle giving
`none` on any malformed response.  Returns the created analysis rows and
the classified count. -/
def classify_posts (businesses : List Business) (posts : List PostRow)
    (oracle : PostRow → Option Classification) (now : Nat) :
    List AnalysisRow × Nat :=
  if businesses.isEmpty then ([], 0)
  else posts.foldl (classifyStep businesses oracle now) ([], 0)

/-- The rows contributed by a single post in one run. -/
def perPostRows (businesses : List Business)
    (oracle : PostRow → Option Classification) (now : Nat) (p : PostRow) :
    List AnalysisRow :=
  match oracle p with
  | none => []
  | some c => classify_one businesses now p c

theorem classify_foldl (businesses : List Business)
    (oracle : PostRow → Option Classification) (now : Nat) :
    ∀ (posts : List PostRow) (acc : List AnalysisRow × Nat),
    posts.foldl (classifyStep businesses oracle now) acc =
      (acc.1 ++ (posts.map (perPostRows businesses oracle now)).flatten,
       acc.2 + (posts.filter (fun p => (oracle p).isSome)).length)
  | [], acc => by simp
  | p :: ps, acc => by
    rw [List.foldl_cons, classify_foldl businesses oracle now ps]
    cases horacle : oracle p with
    | none =>
      simp [classifyStep, perPostRows, horacle]
    | some c =>
      simp only [classifyStep, perPostRows, horacle, List.map_cons,
        List.flatten_cons, List.filter_cons, Option.isSome_some, if_true,
        List.length_cons]
      rw [List.append_assoc]
      simp only [Prod.mk.injEq]
      exact ⟨by trivial, by omega⟩

theorem classify_posts_eq (businesses : List Business) (posts : List PostRow)
    (oracle : PostRow → Option Classification) (now : Nat)
    (h : businesses ≠ []) :
    classify_posts businesses posts oracle now =
      ((posts.map (perPostRows businesses oracle now)).flatten,
       (posts.filter (fun p => (oracle p).isSome)).length) := by
  unfold classify_posts
  rw [if_neg (by simpa using h)]
  rw [classify_foldl]
  simp

theorem perPostRows_post_id (businesses : List Business)
    (oracle : PostRow → Option Classification) (now : Nat) (p : PostRow)
    (row : AnalysisRow) (hrow : row ∈ perPostRows businesses oracle now p) :
    row.post_id = p.id := by
  cases horacle : oracle p with
  | none => simp [perPostRows, horacle] at hrow
  | some c =>
    rw [show perPostRows businesses oracle now p = classify_one businesses now p c
      from by unfold perPostRows; rw [horacle]] at hrow
    unfold classify_one at hrow
    by_cases he : c.relevant_to.isEmpty = true
    · rw [if_pos he] at hrow
      cases businesses with
      | nil => simp at hrow
      | cons b rest =>
        simp only [List.mem_singleton] at hrow
        rw [hrow]
        rfl
    · rw [if_neg he] at hrow
      obtain ⟨slug, _, heq⟩ := List.mem_filterMap.1 hrow
      obtain ⟨bid, _, hbid⟩ := Option.map_eq_some.1 heq
      rw [← hbid]
      rfl

theorem filterMap_lookup_eq_map (bm : String → Option Nat) (g : Nat → AnalysisRow) :
    ∀ (l : List String), (∀ s ∈ l, (bm s).isSome) →
    l.filterMap (fun slug => (bm slug).map (fun bid => g bid)) =
      l.map (fun s => g ((bm s).getD 0))
  | [], _ => rfl
  | s :: rest, h => by
    obtain ⟨bid, hbid⟩ := Option.isSome_iff_exists.1 (h s (by simp))
    have hfa : (bm s).map (fun bid => g bid) = some (g bid) := by
      simp [hbid]
    rw [List.filterMap_cons, List.map_cons, hfa, hbid]
    simp only [Option.getD_some]
    rw [filterMap_lookup_eq_map bm g rest (fun x hx => h x (by simp [hx]))]

theorem mem_unanalyzed (posts : List PostRow) (analysis : List AnalysisRow)
    (limit : Nat) (p : PostRow)
    (hp : p ∈ get_unanalyzed_posts posts analysis limit) :
    p ∈ posts ∧ ∀ a ∈ analysis, a.post_id ≠ p.id := by
  unfold get_unanalyzed_posts at hp
  have h1 := List.mem_of_mem_take hp
  have h2 := (List.perm_insertionSort
    (fun p q : PostRow => q.scraped_at ≤ p.scraped_at) _).mem_iff.1 h1
  have h3 := List.mem_filter.1 h2
  refine ⟨h3.1, ?_⟩
  intro a ha heq
  have hfalse : analysis.any (fun a => a.post_id = p.id) = false := by
    simpa using h3.2
  have hnp := (List.any_eq_false.1 hfalse) a ha
  simp only [decide_eq_true_eq] at hnp
  exact hnp heq

/-! ### Claim C2: classifier fan-out -/

/-- C2: for a post whose verdict names k named slugs that all resolve in the
active roster, exactly k analysis rows are stored, one per named business,
each carrying the same relevance, pain and urgency values; a verdict naming
no business stores exactly one row against the first-listed business. -/
theorem c2_classifier_fanout :
    (∀ (businesses : List Business) (p : PostRow) (c : Classification)
        (oracle : PostRow → Option Classification) (now : Nat),
      oracle p = some c →
      businesses ≠ [] →
      c.relevant_to ≠ [] →
      (∀ s ∈ c.relevant_to, (business_map businesses s).isSome) →
      classify_posts businesses [p] oracle now =
        (c.relevant_to.map (fun s =>
          save_analysis p.id ((business_map businesses s).getD 0) c now), 1) ∧
      (classify_posts businesses [p] oracle now).1.length =
        c.relevant_to.length ∧
      (∀ row ∈ (classify_posts businesses [p] oracle now).1,
        row.relevance_score = c.relevance_score ∧
        row.pain_score = c.pain_score ∧ row.urgency = c.urgency)) ∧
    (∀ (b : Business) (rest : List Business) (p : PostRow) (c : Classification)
        (oracle : PostRow → Option Classification) (now : Nat),
      oracle p = some c →
      c.relevant_to = [] →
      classify_posts (b :: rest) [p] oracle now =
        ([save_analysis p.id b.id c now], 1)) := by
  constructor
  · intro businesses p c oracle now horacle hb hne hlook
    have hper : perPostRows businesses oracle now p =
        classify_one businesses now p c := by
      unfold perPostRows; rw [horacle]
    have hco : classify_one businesses now p c =
        c.relevant_to.map (fun s =>
          save_analysis p.id ((business_map businesses s).getD 0) c now) := by
      unfold classify_one
      rw [if_neg (by simpa using hne)]
      exact filterMap_lookup_eq_map (business_map businesses) _ c.relevant_to hlook
    have heq : classify_posts businesses [p] oracle now =
        (c.relevant_to.map (fun s =>
          save_analysis p.id ((business_map businesses s).getD 0) c now), 1) := by
      rw [classify_posts_eq businesses [p] oracle now hb]
      simp only [List.map_cons, List.map_nil, List.flatten_cons,
        List.flatten_nil, List.append_nil, List.filter_cons, horacle,
        Option.isSome_some, if_true, List.filter_nil, List.length_cons,
        List.length_nil]
      rw [hper, hco]
    refine ⟨heq, ?_, ?_⟩
    · rw [heq]
      simp
    · intro row hrow
      rw [heq] at hrow
      obtain ⟨s, _, hs⟩ := List.mem_map.1 hrow
      rw [← hs]
      exact ⟨rfl, rfl, rfl⟩
  · intro b rest p c oracle now horacle hrel
    have hper : perPostRows (b :: rest) oracle now p =
        [save_analysis p.id b.id c now] := by
      have hred : perPostRows (b :: rest) oracle now p =
          classify_one (b :: rest) now p c := by
        unfold perPostRows; rw [horacle]
      rw [hred]
      unfold classify_one
      rw [if_pos (by simp [hrel])]
    rw [classify_posts_eq (b :: rest) [p] oracle now (by simp)]
    simp only [List.map_cons, List.map_nil, List.flatten_cons,
      List.flatten_nil, List.append_nil, List.filter_cons, horacle,
      Option.isSome_some, if_true, List.filter_nil, List.length_cons,
      List.length_nil]
    rw [hper]

/-- Witness for C2: one business, a verdict naming its slug, one stored row. -/
theorem c2_classifier_fanout_witness :
    classify_posts [⟨1, "Acme", "acme", none, none⟩]
      [⟨10, "reddit", none, none, none, none, none, 50⟩]
      (fun _ => some ⟨["acme"], some 8, some "pain_point", some 7, some "high",
        [], none, none⟩) 5 =
      ([save_analysis 10 1 ⟨["acme"], some 8, some "pain_point", some 7,
        some "high", [], none, none⟩ 5], 1) := by
  have h := (c2_classifier_fanout.1 [⟨1, "Acme", "acme", none, none⟩]
    ⟨10, "reddit", none, none, none, none, none, 50⟩
    ⟨["acme"], some 8, some "pain_point", some 7, some "high", [], none, none⟩
    (fun _ => some ⟨["acme"], some 8, some "pain_point", some 7, some "high",
      [], none, none⟩) 5 rfl (by simp) (by simp) (by decide)).1
  rw [h]
  rfl

/-! ### Claim C7: malformed responses skipped, batch bounded -/

/-- C7: a batch run touches at most the batch-size number of unclassified
posts; the returned count equals the number of posts whose classification
succeeded (malformed responses are not counted); a post with a malformed
response gets no analysis row and remains unclassified, hence eligible for
the next run. -/
theorem c7_malformed_skipped :
    (∀ (posts_table : List PostRow) (analysis_table : List AnalysisRow)
        (limit : Nat),
      (get_unanalyzed_posts posts_table analysis_table limit).length ≤ limit) ∧
    (∀ (businesses : List Business) (posts : List PostRow)
        (oracle : PostRow → Option Classification) (now : Nat),
      businesses ≠ [] →
      (classify_posts businesses posts oracle now).2 =
        (posts.filter (fun p => (oracle p).isSome)).length) ∧
    (∀ (businesses : List Business) (posts_table : List PostRow)
        (analysis_table : List AnalysisRow) (limit : Nat)
        (oracle : PostRow → Option Classification) (now : Nat) (p : PostRow),
      businesses ≠ [] →
      (posts_table.map (fun q => q.id)).Nodup →
      p ∈ get_unanalyzed_posts posts_table analysis_table limit →
      oracle p = none →
      (∀ row ∈ (classify_posts businesses
          (get_unanalyzed_posts posts_table analysis_table limit)
          oracle now).1,
        row.post_id ≠ p.id) ∧
      (∀ a ∈ analysis_table ++ (classify_posts businesses
          (get_unanalyzed_posts posts_table analysis_table limit)
          oracle now).1,
        a.post_id ≠ p.id)) := by
  refine ⟨?_, ?_, ?_⟩
  · intro posts_table analysis_table limit
    unfold get_unanalyzed_posts
    exact List.length_take_le _ _
  · intro businesses posts oracle now hb
    rw [classify_posts_eq businesses posts oracle now hb]
  · intro businesses posts_table analysis_table limit oracle now p hb hnd hp hnone
    have hrows : ∀ row ∈ (classify_posts businesses
        (get_unanalyzed_posts posts_table analysis_table limit)
        oracle now).1, row.post_id ≠ p.id := by
      intro row hrow hpid
      rw [classify_posts_eq businesses _ oracle now hb] at hrow
      obtain ⟨rows, hrowsmem, hrowin⟩ := List.mem_flatten.1 hrow
      obtain ⟨q, hq, hqrows⟩ := List.mem_map.1 hrowsmem
      have hqid : row.post_id = q.id := by
        rw [← hqrows] at hrowin
        exact perPostRows_post_id businesses oracle now q row hrowin
      have hqposts : q ∈ posts_table := (mem_unanalyzed _ _ _ q hq).1
      have hpposts : p ∈ posts_table := (mem_unanalyzed _ _ _ p hp).1
      have hqp : q = p := List.inj_on_of_nodup_map hnd hqposts hpposts
        (by rw [← hqid, hpid])
      rw [hqp] at hqrows
      rw [← hqrows] at hrowin
      unfold perPostRows at hrowin
      rw [hnone] at hrowin
      simp at hrowin
    refine ⟨hrows, ?_⟩
    intro a ha
    rcases List.mem_append.1 ha with hold | hnew
    · exact (mem_unanalyzed _ _ _ p hp).2 a hold
    · exact hrows a hnew

/-- Witness for C7: a two-post table where one post gets a malformed
response: only the other is counted and stored. -/
theorem c7_malformed_skipped_witness :
    (get_unanalyzed_posts
      [⟨1, "reddit", none, none, none, none, none, 10⟩,
       ⟨2, "reddit", none, none, none, none, none, 20⟩] [] 5).length ≤ 5 ∧
    (classify_posts [⟨1, "Acme", "acme", none, none⟩]
      (get_unanalyzed_posts
        [⟨1, "reddit", none, none, none, none, none, 10⟩,
         ⟨2, "reddit", none, none, none, none, none, 20⟩] [] 5)
      (fun q => if q.id = 2 then none else
        some ⟨["acme"], some 8, none, some 7, some "high", [], none, none⟩)
      9).2 =
      ((get_unanalyzed_posts
        [⟨1, "reddit", none, none, none, none, none, 10⟩,
         ⟨2, "reddit", none, none, none, none, none, 20⟩] [] 5).filter
        (fun p => ((fun q : PostRow => if q.id = 2 then none else
          some (⟨["acme"], some 8, none, some 7, some "high", [], none,
            none⟩ : Classification)) p).isSome)).length :=
  ⟨c7_malformed_skipped.1
    [⟨1, "reddit", none, none, none, none, none, 10⟩,
     ⟨2, "reddit", none, none, none, none, none, 20⟩] [] 5,
   c7_malformed_skipped.2.1 [⟨1, "Acme", "acme", none, none⟩]
    (get_unanalyzed_posts
      [⟨1, "reddit", none, none, none, none, none, 10⟩,
       ⟨2, "reddit", none, none, none, none, none, 20⟩] [] 5)
    (fun q => if q.id = 2 then none else
      some ⟨["acme"], some 8, none, some 7, some "high", [], none, none⟩)
    9 (by simp)⟩

/-! ### Claim C9: verdicts naming only unknown slugs are counted but store nothing -/

/-- C9: a post whose well-formed verdict names only slugs matching no active
business is counted in the classified count although zero analysis rows are
stored for it, so the set of unclassified posts fetched by the next batch
run is unchanged. -/
theorem c9_unknown_slugs_counted (businesses : List Business) (p : PostRow)
    (c : Classification) (oracle : PostRow → Option Classification) (now : Nat)
    (posts_table : List PostRow) (analysis_table : List AnalysisRow)
    (limit : Nat)
    (hb : businesses ≠ [])
    (horacle : oracle p = some c)
    (hne : c.relevant_to ≠ [])
    (hmiss : ∀ s ∈ c.relevant_to, business_map businesses s = none) :
    classify_posts businesses [p] oracle now = ([], 1) ∧
    get_unanalyzed_posts posts_table
      (analysis_table ++ (classify_posts businesses [p] oracle now).1) limit =
      get_unanalyzed_posts posts_table analysis_table limit := by
  have hper : perPostRows businesses oracle now p = [] := by
    have hred : perPostRows businesses oracle now p =
        classify_one businesses now p c := by
      unfold perPostRows; rw [horacle]
    rw [hred]
    unfold classify_one
    rw [if_neg (by simpa using hne)]
    rw [List.filterMap_eq_nil_iff]
    intro s hs
    rw [hmiss s hs]
    rfl
  have heq : classify_posts businesses [p] oracle now = ([], 1) := by
    rw [classify_posts_eq businesses [p] oracle now hb]
    simp [hper, horacle]
  refine ⟨heq, ?_⟩
  rw [heq]
  simp

/-- Witness for C9: a verdict naming a slug absent from the roster yields
zero rows and a count of one. -/
theorem c9_unknown_slugs_counted_witness :
    classify_posts [⟨1, "Acme", "acme", none, none⟩]
      [⟨10, "reddit", none, none, none, none, none, 50⟩]
      (fun _ => some ⟨["ghost"], some 8, none, some 7, some "high", [],
        none, none⟩) 5 = ([], 1) :=
  (c9_unknown_slugs_counted [⟨1, "Acme", "acme", none, none⟩]
    ⟨10, "reddit", none, none, none, none, none, 50⟩
    ⟨["ghost"], some 8, none, some 7, some "high", [], none, none⟩
    (fun _ => some ⟨["ghost"], some 8, none, some 7, some "high", [],
      none, none⟩) 5 [] [] 0 (by simp) rfl (by simp) (by decide)).1

/-! ### Keyword consensus engine (src/processing/keyword_suggester.py) -/

/-- ASCII whitespace characters recognised by the Python `str.strip`. -/
def isPySpaceChar (c : Char) : Bool :=
  c = ' ' || c = '\t' || c = '\n' || c = '\r' || c = '\x0b' || c = '\x0c'

/-- Both-ends whitespace trim on a character list. -/
def pyStripList (l : List Char) : List Char :=
  ((l.dropWhile isPySpaceChar).reverse.dropWhile isPySpaceChar).reverse

/-- Embedding of the Python `str.strip()` used on keyword text. -/
def pyStrip (s : String) : String := String.mk (pyStripList s.data)

/-- ASCII lower-casing on a code point, as performed by `str.lower`. -/
def asciiLowerNat (n : Nat) : Nat := if 65 ≤ n ∧ n ≤ 90 then n + 32 else n

/-- The code points of a string. -/
def strCodes (s : String) : List Nat := s.data.map Char.toNat

/-- Code points of the lower-cased string, the Python sort key
`x.lower()`. -/
def pyLowerCodes (s : String) : List Nat := (strCodes s).map asciiLowerNat

/-- Python lexicographic string comparison (less-or-equal) on code-point
lists. -/
def codeLe : List Nat → List Nat → Bool
  | [], _ => true
  | _ :: _, [] => false
  | a :: as, b :: bs => if a = b then codeLe as bs else decide (a < b)

theorem codeLe_total : ∀ (a b : List Nat), codeLe a b = true ∨ codeLe b a = true
  | [], _ => Or.inl rfl
  | _ :: _, [] => Or.inr rfl
  | a :: as, b :: bs => by
    by_cases hab : a = b
    · subst hab
      simp only [codeLe, if_pos rfl]
      exact codeLe_total as bs
    · rcases Nat.lt_or_ge a b with h | h
      · left
        simp only [codeLe, if_neg hab]
        exact decide_eq_true h
      · right
        have hba : b ≠ a := fun hc => hab hc.symm
        simp only [codeLe, if_neg hba]
        exact decide_eq_true (by omega)

theorem codeLe_trans : ∀ (a b c : List Nat),
    codeLe a b = true → codeLe b c = true → codeLe a c = true
  | [], _, _ => fun _ _ => rfl
  | x :: xs, [], _ => by intro h _; simp [codeLe] at h
  | _ :: _, _ :: _, [] => by intro _ h; simp [codeLe] at h
  | x :: xs, y :: ys, z :: zs => by
    intro h1 h2
    by_cases hxy : x = y <;> by_cases hyz : y = z
    · subst hxy; subst hyz
      simp only [codeLe, if_pos rfl] at h1 h2 ⊢
      exact codeLe_trans xs ys zs h1 h2
    · subst hxy
      simp only [codeLe, if_neg hyz] at h2
      simp only [codeLe, if_neg hyz]
      exact h2
    · subst hyz
      simp only [codeLe, if_neg hxy] at h1
      simp only [codeLe, if_neg hxy]
      exact h1
    · simp only [codeLe, if_neg hxy] at h1
      simp only [codeLe, if_neg hyz] at h2
      have hx : x < y := of_decide_eq_true h1
      have hy : y < z := of_decide_eq_true h2
      have hxz : x ≠ z := by omega
      simp only [codeLe, if_neg hxz]
      exact decide_eq_true (by omega)

/-- A keyword proposal inside one parsed model response. -/
structure KwIn where
  keyword : String
  category : String
deriving DecidableEq

/-- The per-model result assembled by `query_model`: the model identifier,
its proposed keywords, and an error message when the query failed. -/
structure ModelResult where
  model : String
  keywords : List KwIn
  error : Option String
deriving DecidableEq

/-- One value of `keyword_map` during aggregation: the stored (trimmed)
keyword text, the category from the first model that proposed it, and the
set (as a duplicate-free insertion-ordered list) of proposing models. -/
structure Entry where
  keyword : String
  category : String
  models : List String
deriving DecidableEq

/-- An element of the combined list returned by `suggest_keywords`. -/
structure EntryOut where
  keyword : String
  category : String
  models : List String
  model_count : Nat
deriving DecidableEq

/-- Python `set.add` on the model set, modelled as append-if-absent. -/
def insertModel (models : List String) (m : String) : List String :=
  if m ∈ models then models else models ++ [m]

/-- The body of the aggregation loop for a single proposed keyword: trim the
text, drop it if empty, attach the model to the existing entry for that
text, or append a fresh entry with this category and model. -/
def addKeyword (acc : List Entry) (modelName : String) (kw : KwIn) :
    List Entry :=
  let k := pyStrip kw.keyword
  if k = "" then acc
  else if acc.any (fun e => e.keyword = k) then
    acc.map (fun e => if e.keyword = k then
      { e with models := insertModel e.models modelName } else e)
  else acc ++ [⟨k, kw.category, [modelName]⟩]

/-- One result in the aggregation loop: failed models are skipped, the
keywords of successful models are folded in. -/
def aggStep (acc : List Entry) (r : ModelResult) : List Entry :=
  if r.error.isSome then acc
  else r.keywords.foldl (fun a kw => addKeyword a r.model kw) acc

/-- The keyword-map construction of `suggest_keywords` over all model
results, in order. -/
def aggregateResults (results : List ModelResult) : List Entry :=
  results.foldl aggStep []

/-- The comparison key order of the final sort: descending model count,
then ascending lower-cased keyword text. -/
def entryKeyLe (a b : EntryOut) : Bool :=
  decide (b.model_count < a.model_count) ||
  (decide (a.model_count = b.model_count) &&
    codeLe (pyLowerCodes a.keyword) (pyLowerCodes b.keyword))

/-- The sort relation of the final combined list. -/
def entryRel (a b : EntryOut) : Prop := entryKeyLe a b = true

/-- The sort relation for each entry's model identifier list. -/
def modelRel (a b : String) : Prop := codeLe (strCodes a) (strCodes b) = true

instance : DecidableRel entryRel :=
  fun a b => inferInstanceAs (Decidable (entryKeyLe a b = true))

instance : DecidableRel modelRel :=
  fun a b => inferInstanceAs (Decidable (codeLe (strCodes a) (strCodes b) = true))

instance : IsTotal String modelRel :=
  ⟨fun a b => codeLe_total (strCodes a) (strCodes b)⟩

instance : IsTrans String modelRel :=
  ⟨fun a b c => codeLe_trans (strCodes a) (strCodes b) (strCodes c)⟩

instance : IsTotal EntryOut entryRel := by
  constructor
  intro a b
  unfold entryRel entryKeyLe
  rcases Nat.lt_trichotomy a.model_count b.model_count with h | h | h
  · right
    simp [h]
  · rcases codeLe_total (pyLowerCodes a.keyword) (pyLowerCodes b.keyword)
      with hc | hc
    · left; simp [h, hc]
    · right; simp [h, hc]
  · left
    simp [h]

instance : IsTrans EntryOut entryRel := by
  constructor
  intro a b c hab hbc
  unfold entryRel entryKeyLe at hab hbc ⊢
  simp only [Bool.or_eq_true, Bool.and_eq_true, decide_eq_true_eq]
    at hab hbc ⊢
  rcases hab with h1 | ⟨h1, hc1⟩ <;> rcases hbc with h2 | ⟨h2, hc2⟩
  · left; omega
  · left; omega
  · left; omega
  · right
    exact ⟨by omega, codeLe_trans _ _ _ hc1 hc2⟩

/-- Conversion of an aggregated entry to the output record: sorted model
list and agreement count. -/
def toEntryOut (e : Entry) : EntryOut :=
  ⟨e.keyword, e.category, List.insertionSort modelRel e.models,
   e.models.length⟩

/-- Embedding of the aggregation, conversion and final sort performed by
`suggest_keywords` in src/processing/keyword_suggester.py, applied to the
gathered per-model results. -/
def suggest_keywords (results : List ModelResult) : List EntryOut :=
  List.insertionSort entryRel ((aggregateResults results).map toEntryOut)

instance : DecidableEq (Except String (List KwIn))
  | .error a, .error b => decidable_of_iff (a = b) (by simp)
  | .error _, .ok _ => isFalse (by simp)
  | .ok _, .error _ => isFalse (by simp)
  | .ok a, .ok b => decidable_of_iff (a = b) (by simp)

/-- The outcome of one model query, abstracting the HTTP transport and the
JSON parse of the returned content. -/
inductive ModelResponse where
  | timeout
  | httpResponse (status : Nat) (parse : Except String (List KwIn))
deriving DecidableEq

/-- Embedding of `query_model` from src/processing/keyword_suggester.py: a
timeout, a non-success status or an unparseable body set the error field
and leave the keyword list empty; a parsed success carries the keywords. -/
def query_model (modelName : String) (resp : ModelResponse) : ModelResult :=
  match resp with
  | .timeout => ⟨modelName, [], some "Request timed out"⟩
  | .httpResponse status parse =>
    if status ≠ 200 then ⟨modelName, [], some "API error"⟩
    else
      match parse with
      | .error e => ⟨modelName, [], some ("JSON parse error: " ++ e)⟩
      | .ok kws => ⟨modelName, kws, none⟩

/-- The aggregation invariant: every entry has nonempty trimmed text, a
duplicate-free model list drawn from the allowed model names, and entry
keys are pairwise distinct. -/
def goodAgg (M : List String) (acc : List Entry) : Prop :=
  (∀ e ∈ acc, e.keyword ≠ "" ∧ e.models.Nodup ∧ ∀ m ∈ e.models, m ∈ M) ∧
  acc.Pairwise (fun e1 e2 => e1.keyword ≠ e2.keyword)

theorem insertModel_nodup (models : List String) (m : String)
    (h : models.Nodup) : (insertModel models m).Nodup := by
  by_cases hm : m ∈ models
  · simpa [insertModel, hm] using h
  · simp only [insertModel, if_neg hm]
    rw [List.nodup_append]
    refine ⟨h, by simp, ?_⟩
    intro a ha hb
    simp only [List.mem_singleton] at hb
    rw [hb] at ha
    exact hm ha

theorem insertModel_sub (models : List String) (m : String) (M : List String)
    (h : ∀ x ∈ models, x ∈ M) (hm : m ∈ M) :
    ∀ x ∈ insertModel models m, x ∈ M := by
  intro x hx
  by_cases hmem : m ∈ models
  · exact h x (by simpa [insertModel, hmem] using hx)
  · simp only [insertModel, if_neg hmem, List.mem_append,
      List.mem_singleton] at hx
    rcases hx with hx | hx
    · exact h x hx
    · rw [hx]; exact hm

theorem addKeyword_good (M : List String) (acc : List Entry) (m : String)
    (kw : KwIn) (hg : goodAgg M acc) (hm : m ∈ M) :
    goodAgg M (addKeyword acc m kw) := by
  unfold addKeyword
  by_cases hk : pyStrip kw.keyword = ""
  · simpa [hk] using hg
  · simp only [hk, if_false]
    by_cases hany : acc.any (fun e => e.keyword = pyStrip kw.keyword) = true
    · simp only [hany, if_true]
      constructor
      · intro e he
        obtain ⟨x, hx, hxe⟩ := List.mem_map.1 he
        obtain ⟨hx1, hx2, hx3⟩ := hg.1 x hx
        by_cases hxk : x.keyword = pyStrip kw.keyword
        · rw [if_pos hxk] at hxe
          rw [← hxe]
          exact ⟨hx1, insertModel_nodup _ _ hx2, insertModel_sub _ _ _ hx3 hm⟩
        · rw [if_neg hxk] at hxe
          rw [← hxe]
          exact ⟨hx1, hx2, hx3⟩
      · rw [List.pairwise_map]
        apply List.Pairwise.imp ?_ hg.2
        intro e1 e2 h12
        by_cases h1 : e1.keyword = pyStrip kw.keyword <;>
          by_cases h2 : e2.keyword = pyStrip kw.keyword
        · rw [if_pos h1, if_pos h2]; simpa using h12
        · rw [if_pos h1, if_neg h2]; simpa using h12
        · rw [if_neg h1, if_pos h2]; simpa using h12
        · rw [if_neg h1, if_neg h2]; simpa using h12
    · simp only [hany, Bool.false_eq_true, if_false]
      constructor
      · intro e he
        rcases List.mem_append.1 he with he | he
        · exact hg.1 e he
        · simp only [List.mem_singleton] at he
          rw [he]
          exact ⟨hk, by simp, by simpa using hm⟩
      · rw [List.pairwise_append]
        refine ⟨hg.2, by simp, ?_⟩
        intro e1 h1 e2 h2
        simp only [List.mem_singleton] at h2
        rw [h2]
        intro hcontra
        have hc2 : e1.keyword = pyStrip kw.keyword := hcontra
        have : acc.any (fun e => e.keyword = pyStrip kw.keyword) = true := by
          simp only [List.any_eq_true]
          exact ⟨e1, h1, by simp [hc2]⟩
        rw [this] at hany
        exact hany rfl

theorem foldKw_good (M : List String) (m : String) (hm : m ∈ M) :
    ∀ (kws : List KwIn) (acc : List Entry), goodAgg M acc →
    goodAgg M (kws.foldl (fun a kw => addKeyword a m kw) acc)
  | [], acc, hg => hg
  | kw :: rest, acc, hg => by
    rw [List.foldl_cons]
    exact foldKw_good M m hm rest _ (addKeyword_good M acc m kw hg hm)

theorem aggfold_good : ∀ (results : List ModelResult) (acc : List Entry)
    (M : List String), goodAgg M acc →
    (∀ r ∈ results, r.error.isNone = true → r.model ∈ M) →
    goodAgg M (results.foldl aggStep acc)
  | [], acc, M, hg, _ => hg
  | r :: rest, acc, M, hg, hr => by
    rw [List.foldl_cons]
    apply aggfold_good rest _ M ?_ (fun x hx => hr x (by simp [hx]))
    unfold aggStep
    by_cases he : r.error.isSome = true
    · simpa [he] using hg
    · simp only [he, Bool.false_eq_true, if_false]
      have hnone : r.error.isNone = true := by
        cases h : r.error <;> simp_all
      exact foldKw_good M r.model (hr r (by simp) hnone) r.keywords acc hg

theorem aggregate_good (results : List ModelResult) :
    goodAgg ((results.filter (fun r => r.error.isNone)).map (fun r => r.model))
      (aggregateResults results) := by
  apply aggfold_good results [] _ (by constructor <;> simp)
  intro r hr hnone
  exact List.mem_map.2 ⟨r, List.mem_filter.2 ⟨hr, hnone⟩, rfl⟩

theorem aggregate_filter_eq : ∀ (results : List ModelResult)
    (acc : List Entry),
    results.foldl aggStep acc =
      (results.filter (fun r => r.error.isNone)).foldl aggStep acc
  | [], _ => rfl
  | r :: rest, acc => by
    by_cases he : r.error.isSome = true
    · have hnone : r.error.isNone = false := by
        cases h : r.error <;> simp_all
      rw [List.filter_cons, hnone]
      simp only [Bool.false_eq_true, if_false]
      rw [List.foldl_cons]
      have hstep : aggStep acc r = acc := by simp [aggStep, he]
      rw [hstep]
      exact aggregate_filter_eq rest acc
    · have hnone : r.error.isNone = true := by
        cases h : r.error <;> simp_all
      rw [List.filter_cons, hnone]
      simp only [if_true]
      rw [List.foldl_cons, List.foldl_cons]
      exact aggregate_filter_eq rest _

/-! ### Claim C4: consensus aggregation -/

/-- C4: aggregation is a mapping keyed by trimmed keyword text with case
preserved as first seen: two models proposing the same trimmed keyword
contribute a single entry whose model set holds both identifiers and whose
category comes from the first proposer; entries with empty trimmed text are
dropped, and entry keys are pairwise distinct. -/
theorem c4_consensus_aggregation :
    (∀ (m1 m2 : String) (kw1 kw2 : KwIn),
      pyStrip kw1.keyword = pyStrip kw2.keyword →
      pyStrip kw1.keyword ≠ "" →
      m1 ≠ m2 →
      aggregateResults [⟨m1, [kw1], none⟩, ⟨m2, [kw2], none⟩] =
        [⟨pyStrip kw1.keyword, kw1.category, [m1, m2]⟩]) ∧
    (∀ (results : List ModelResult) (e : Entry),
      e ∈ aggregateResults results → e.keyword ≠ "") ∧
    (∀ (results : List ModelResult),
      (aggregateResults results).Pairwise
        (fun e1 e2 => e1.keyword ≠ e2.keyword)) := by
  refine ⟨?_, ?_, ?_⟩
  · intro m1 m2 kw1 kw2 heq hne hmm
    have h1 : aggStep [] ⟨m1, [kw1], none⟩ =
        [⟨pyStrip kw1.keyword, kw1.category, [m1]⟩] := by
      unfold aggStep
      simp only [Option.isSome_none, Bool.false_eq_true, if_false,
        List.foldl_cons, List.foldl_nil]
      unfold addKeyword
      simp only [if_neg hne]
      simp
    have h2 : aggregateResults [⟨m1, [kw1], none⟩, ⟨m2, [kw2], none⟩] =
        addKeyword [⟨pyStrip kw1.keyword, kw1.category, [m1]⟩] m2 kw2 := by
      unfold aggregateResults
      simp only [List.foldl_cons, List.foldl_nil]
      rw [h1]
      unfold aggStep
      simp only [Option.isSome_none, Bool.false_eq_true, if_false,
        List.foldl_cons, List.foldl_nil]
    have h3 : addKeyword [⟨pyStrip kw1.keyword, kw1.category, [m1]⟩] m2 kw2 =
        [⟨pyStrip kw1.keyword, kw1.category, [m1, m2]⟩] := by
      unfold addKeyword
      rw [← heq]
      rw [if_neg hne]
      have hany : ([⟨pyStrip kw1.keyword, kw1.category, [m1]⟩] : List Entry).any
          (fun e => e.keyword = pyStrip kw1.keyword) = true := by simp
      rw [if_pos hany]
      simp only [List.map_cons, List.map_nil]
      simp only [if_true]
      unfold insertModel
      rw [if_neg (by
        simp only [List.mem_singleton]
        exact fun hc => hmm hc.symm)]
      rfl
    rw [h2, h3]
  · intro results e he
    exact ((aggregate_good results).1 e he).1
  · intro results
    exact (aggregate_good results).2

/-- Witness for C4: two models proposing the same keyword up to surrounding
whitespace merge into one entry with the first category. -/
theorem c4_consensus_aggregation_witness :
    aggregateResults
      [⟨"gpt", [⟨" file sync ", "direct"⟩], none⟩,
       ⟨"claude", [⟨"file sync", "pain_point"⟩], none⟩] =
      [⟨"file sync", "direct", ["gpt", "claude"]⟩] := by
  have h := c4_consensus_aggregation.1 "gpt" "claude"
    ⟨" file sync ", "direct"⟩ ⟨"file sync", "pain_point"⟩
    (by decide) (by decide) (by decide)
  rw [h]
  decide

/-! ### Claim C5: consensus ranking -/

/-- C5: the returned list is sorted by descending model-agreement count with
ties broken by ascending case-insensitive keyword text; a keyword proposed
by 3 models precedes one proposed by 1; equal counts order alphabetically by
lower-cased text; and each entry's model identifier list is itself sorted. -/
theorem c5_consensus_ranking :
    (∀ (results : List ModelResult),
      (suggest_keywords results).Pairwise entryRel) ∧
    (suggest_keywords
        [⟨"m1", [⟨"file sync", "direct"⟩], none⟩,
         ⟨"m2", [⟨"file sync", "direct"⟩, ⟨"cloud backup", "industry"⟩], none⟩,
         ⟨"m3", [⟨"file sync", "direct"⟩], none⟩] =
      [⟨"file sync", "direct", ["m1", "m2", "m3"], 3⟩,
       ⟨"cloud backup", "industry", ["m2"], 1⟩]) ∧
    (suggest_keywords [⟨"m1", [⟨"zeta", "direct"⟩, ⟨"Alpha", "direct"⟩], none⟩] =
      [⟨"Alpha", "direct", ["m1"], 1⟩, ⟨"zeta", "direct", ["m1"], 1⟩]) ∧
    (∀ (results : List ModelResult) (e : EntryOut),
      e ∈ suggest_keywords results → e.models.Pairwise modelRel) := by
  refine ⟨?_, ?_, ?_, ?_⟩
  · intro results
    exact List.sorted_insertionSort entryRel _
  · decide
  · decide
  · intro results e he
    have he2 := (List.perm_insertionSort entryRel _).mem_iff.1 he
    obtain ⟨e0, _, rfl⟩ := List.mem_map.1 he2
    show List.Pairwise modelRel (List.insertionSort modelRel e0.models)
    exact List.sorted_insertionSort modelRel _

/-- Witness for C5: the model list of a concrete returned entry is
pairwise sorted. -/
theorem c5_consensus_ranking_witness :
    (⟨"file sync", "direct", ["m1", "m2", "m3"], 3⟩ : EntryOut) ∈
      suggest_keywords
        [⟨"m1", [⟨"file sync", "direct"⟩], none⟩,
         ⟨"m2", [⟨"file sync", "direct"⟩, ⟨"cloud backup", "industry"⟩], none⟩,
         ⟨"m3", [⟨"file sync", "direct"⟩], none⟩] ∧
    (⟨"file sync", "direct", ["m1", "m2", "m3"], 3⟩ : EntryOut).models.Pairwise
      modelRel :=
  ⟨by decide,
   c5_consensus_ranking.2.2.2
    [⟨"m1", [⟨"file sync", "direct"⟩], none⟩,
     ⟨"m2", [⟨"file sync", "direct"⟩, ⟨"cloud backup", "industry"⟩], none⟩,
     ⟨"m3", [⟨"file sync", "direct"⟩], none⟩]
    ⟨"file sync", "direct", ["m1", "m2", "m3"], 3⟩ (by decide)⟩

/-! ### Claim C6: consensus degradation -/

/-- C6: a timeout, non-success status or malformed body is recorded as that
model's failure; failed results are excluded from aggregation; agreement
counts are bounded by the number of successful models; if every model fails
the caller receives an empty list; and with one of three models timing out
the merged list reflects the two successes with count 2. -/
theorem c6_consensus_degradation :
    (∀ (name : String) (st : Nat) (p : Except String (List KwIn)) (e : String),
      (query_model name ModelResponse.timeout).error.isSome = true ∧
      (st ≠ 200 →
        (query_model name (ModelResponse.httpResponse st p)).error.isSome = true) ∧
      (query_model name
        (ModelResponse.httpResponse 200 (Except.error e))).error.isSome = true) ∧
    (∀ (results : List ModelResult),
      aggregateResults results =
        aggregateResults (results.filter (fun r => r.error.isNone))) ∧
    (∀ (results : List ModelResult) (e : EntryOut),
      e ∈ suggest_keywords results →
      e.model_count ≤ (results.filter (fun r => r.error.isNone)).length) ∧
    (∀ (results : List ModelResult),
      (∀ r ∈ results, r.error.isSome = true) → suggest_keywords results = []) ∧
    (suggest_keywords
        [query_model "m1" (ModelResponse.httpResponse 200
          (Except.ok [⟨"file sync", "direct"⟩])),
         query_model "m2" (ModelResponse.httpResponse 200
          (Except.ok [⟨"file sync", "direct"⟩])),
         query_model "m3" ModelResponse.timeout] =
      [⟨"file sync", "direct", ["m1", "m2"], 2⟩]) := by
  refine ⟨?_, ?_, ?_, ?_, ?_⟩
  · intro name st p e
    refine ⟨rfl, ?_, rfl⟩
    intro hst
    simp [query_model, hst]
  · intro results
    unfold aggregateResults
    exact aggregate_filter_eq results []
  · intro results e he
    have he2 := (List.perm_insertionSort entryRel _).mem_iff.1 he
    obtain ⟨e0, he0, rfl⟩ := List.mem_map.1 he2
    obtain ⟨_, hnodup, hsub⟩ := (aggregate_good results).1 e0 he0
    show e0.models.length ≤ _
    set M := (results.filter (fun r => r.error.isNone)).map (fun r => r.model)
      with hM
    calc e0.models.length = e0.models.toFinset.card :=
          (List.toFinset_card_of_nodup hnodup).symm
      _ ≤ M.toFinset.card := Finset.card_le_card (fun x hx =>
          List.mem_toFinset.2 (hsub x (List.mem_toFinset.1 hx)))
      _ ≤ M.length := List.toFinset_card_le M
      _ = (results.filter (fun r => r.error.isNone)).length :=
          List.length_map _ _
  · intro results h
    have hf : results.filter (fun r => r.error.isNone) = [] := by
      rw [List.filter_eq_nil_iff]
      intro r hr
      have := h r hr
      cases hh : r.error <;> simp_all
    have hagg : aggregateResults results = [] := by
      unfold aggregateResults
      rw [aggregate_filter_eq results [], hf]
      rfl
    unfold suggest_keywords
    rw [hagg]
    rfl
  · decide

/-- Witness for C6: every model failing yields the empty suggestion list. -/
theorem c6_consensus_degradation_witness :
    suggest_keywords [⟨"gpt", [], some "Request timed out"⟩,
      ⟨"claude", [], some "API error 500"⟩] = [] :=
  c6_consensus_degradation.2.2.2.1
    [⟨"gpt", [], some "Request timed out"⟩,
     ⟨"claude", [], some "API error 500"⟩] (by decide)

/-! ### Slug generation (src/dashboard.py)

The slug pipeline is modelled on code-point lists.  `create_slug` embeds
the code: lower-case and trim whitespace, delete code points outside
lower-case letters, digits, whitespace and hyphen, collapse each run of
whitespace, underscore or hyphen to a single hyphen, and trim hyphens.
`create_slug_spec` is the same pipeline written from the claim wording,
which omits the whitespace trim and phrases the kept class as
alphanumerics. -/

/-- ASCII whitespace code points: the regex class for whitespace and the
characters trimmed by the bare strip. -/
def pyWS (n : Nat) : Bool :=
  decide (n = 32 ∨ n = 9 ∨ n = 10 ∨ n = 13 ∨ n = 11 ∨ n = 12)

/-- Code points kept by the first substitution of `create_slug`:
lower-case letters, digits, whitespace and the hyphen. -/
def slugAllowed (n : Nat) : Bool :=
  decide ((97 ≤ n ∧ n ≤ 122) ∨ (48 ≤ n ∧ n ≤ 57)) || pyWS n || decide (n = 45)

/-- Code points collapsed by the second substitution: whitespace,
underscore and hyphen. -/
def slugSep (n : Nat) : Bool := pyWS n || decide (n = 95) || decide (n = 45)

/-- The hyphen code point, trimmed at both ends by the final strip. -/
def isHyphen (n : Nat) : Bool := decide (n = 45)

/-- Left trim by a code-point class. -/
def lstripBy (p : Nat → Bool) (l : List Nat) : List Nat := l.dropWhile p

/-- Right trim by a code-point class. -/
def rstripBy (p : Nat → Bool) (l : List Nat) : List Nat :=
  (l.reverse.dropWhile p).reverse

/-- Python `str.strip`: trim both ends. -/
def stripBy (p : Nat → Bool) (l : List Nat) : List Nat :=
  rstripBy p (lstripBy p l)

/-- The second substitution of `create_slug`: each maximal run of separator
code points becomes one hyphen. -/
def collapseSeps : List Nat → List Nat
  | [] => []
  | [c] => if slugSep c then [45] else [c]
  | c :: d :: rest =>
    if slugSep c then
      (if slugSep d then collapseSeps (d :: rest)
       else 45 :: collapseSeps (d :: rest))
    else c :: collapseSeps (d :: rest)

/-- Embedding of `create_slug` from src/dashboard.py on code-point lists. -/
def create_slug (name : List Nat) : List Nat :=
  stripBy isHyphen (collapseSeps
    ((stripBy pyWS (name.map asciiLowerNat)).filter slugAllowed))

/-- Alphanumeric code points in the sense of the claim wording: letters of
either case and digits. -/
def specAlnum (n : Nat) : Bool :=
  decide ((65 ≤ n ∧ n ≤ 90) ∨ (97 ≤ n ∧ n ≤ 122) ∨ (48 ≤ n ∧ n ≤ 57))

/-- Code points kept according to the claim wording: alphanumerics,
whitespace, hyphens. -/
def slugAllowedSpec (n : Nat) : Bool :=
  specAlnum n || pyWS n || decide (n = 45)

/-- The slug derivation as worded by the claim: lower-case, strip code
points that are not alphanumerics, whitespace or hyphens, collapse runs of
whitespace, underscores and hyphens to a single hyphen, and trim leading
and trailing hyphens. -/
def create_slug_spec (name : List Nat) : List Nat :=
  stripBy isHyphen (collapseSeps
    ((name.map asciiLowerNat).filter slugAllowedSpec))

theorem dropWhile_append_all (p : Nat → Bool) :
    ∀ (a b : List Nat), (∀ x ∈ a, p x = true) →
    List.dropWhile p (a ++ b) = List.dropWhile p b
  | [], _, _ => rfl
  | x :: a, b, h => by
    rw [List.cons_append, List.dropWhile_cons_of_pos (h x (by simp))]
    exact dropWhile_append_all p a b (fun y hy => h y (by simp [hy]))

theorem dropWhile_append_cases (p : Nat → Bool) :
    ∀ (a b : List Nat),
    List.dropWhile p (a ++ b) =
      if (List.dropWhile p a).isEmpty then List.dropWhile p b
      else List.dropWhile p a ++ b
  | [], b => by simp
  | x :: a, b => by
    cases hx : p x
    · rw [List.cons_append,
        List.dropWhile_cons_of_neg (by simp [hx]),
        List.dropWhile_cons_of_neg (by simp [hx])]
      simp
    · rw [List.cons_append, List.dropWhile_cons_of_pos hx,
        List.dropWhile_cons_of_pos hx]
      exact dropWhile_append_cases p a b

theorem dropWhile_head_false (p : Nat → Bool) :
    ∀ (l : List Nat) (x : Nat) (xs : List Nat),
    List.dropWhile p l = x :: xs → p x = false
  | [], _, _ => by intro h; simp at h
  | y :: l, x, xs => by
    intro h
    cases hy : p y
    · rw [List.dropWhile_cons_of_neg (by simp [hy])] at h
      injection h with h1 _
      rw [← h1]
      exact hy
    · rw [List.dropWhile_cons_of_pos hy] at h
      exact dropWhile_head_false p l x xs h

theorem dropWhile_idem (p : Nat → Bool) (l : List Nat) :
    List.dropWhile p (List.dropWhile p l) = List.dropWhile p l := by
  cases h : List.dropWhile p l with
  | nil => rfl
  | cons x xs =>
    rw [List.dropWhile_cons_of_neg
      (by simp [dropWhile_head_false p l x xs h])]

theorem rstripBy_append_pos (p : Nat → Bool) (l : List Nat) (c : Nat)
    (h : p c = true) : rstripBy p (l ++ [c]) = rstripBy p l := by
  unfold rstripBy
  rw [List.reverse_append]
  simp only [List.reverse_cons, List.reverse_nil, List.nil_append,
    List.singleton_append]
  rw [List.dropWhile_cons_of_pos h]

theorem rstripBy_cons_neg (p : Nat → Bool) (c : Nat) (l : List Nat)
    (h : p c = false) : rstripBy p (c :: l) = c :: rstripBy p l := by
  unfold rstripBy
  rw [List.reverse_cons, dropWhile_append_cases]
  by_cases he : List.dropWhile p l.reverse = []
  · rw [if_pos (by simp [he])]
    rw [List.dropWhile_cons_of_neg (by simp [h]), he]
    simp
  · rw [if_neg (by simp [he])]
    rw [List.reverse_append]
    simp

theorem rstripBy_eq_nil_iff (p : Nat → Bool) (l : List Nat) :
    rstripBy p l = [] ↔ ∀ x ∈ l, p x = true := by
  unfold rstripBy
  constructor
  · intro h x hx
    have hrev : List.dropWhile p l.reverse = [] := by
      have := congrArg List.reverse h
      simpa using this
    exact List.dropWhile_eq_nil_iff.1 hrev x (List.mem_reverse.2 hx)
  · intro h
    rw [List.dropWhile_eq_nil_iff.2 (fun x hx => h x (List.mem_reverse.1 hx))]
    rfl

theorem rstripBy_idem (p : Nat → Bool) (l : List Nat) :
    rstripBy p (rstripBy p l) = rstripBy p l := by
  unfold rstripBy
  rw [List.reverse_reverse, dropWhile_idem]

theorem rstripBy_sep_cons (p : Nat → Bool) (c : Nat) (t : List Nat)
    (h : p c = true) :
    rstripBy p (c :: t) =
      if rstripBy p t = [] then [] else c :: rstripBy p t := by
  unfold rstripBy
  rw [List.reverse_cons, dropWhile_append_cases]
  by_cases he : List.dropWhile p t.reverse = []
  · rw [if_pos (by simp [he]), if_pos (by simp [he])]
    rw [List.dropWhile_cons_of_pos h]
    rfl
  · rw [if_neg (by simp [he]), if_neg (by simp [he])]
    rw [List.reverse_append]
    simp

theorem rstripBy_not_all (p : Nat → Bool) (z : List Nat)
    (h : rstripBy p z ≠ []) : ¬(∀ x ∈ rstripBy p z, p x = true) := by
  intro hall
  have hrev : List.dropWhile p z.reverse ≠ [] := by
    intro hc
    apply h
    unfold rstripBy
    rw [hc]
    rfl
  obtain ⟨x, xs, hx⟩ : ∃ x xs, List.dropWhile p z.reverse = x :: xs := by
    cases hc : List.dropWhile p z.reverse with
    | nil => exact absurd hc hrev
    | cons a b => exact ⟨a, b, rfl⟩
  have hpx : p x = false := dropWhile_head_false p z.reverse x xs hx
  have hxmem : x ∈ rstripBy p z := by
    unfold rstripBy
    rw [hx]
    simp
  rw [hall x hxmem] at hpx
  simp at hpx

theorem lstrip_rstrip_comm (p : Nat → Bool) :
    ∀ (l : List Nat), lstripBy p (rstripBy p l) = rstripBy p (lstripBy p l)
  | [] => rfl
  | c :: t => by
    cases hc : p c
    · have h1 : lstripBy p (c :: t) = c :: t := by
        unfold lstripBy
        rw [List.dropWhile_cons_of_neg (by simp [hc])]
      rw [h1, rstripBy_cons_neg p c t hc]
      unfold lstripBy
      rw [List.dropWhile_cons_of_neg (by simp [hc])]
    · have h1 : lstripBy p (c :: t) = lstripBy p t := by
        unfold lstripBy
        rw [List.dropWhile_cons_of_pos hc]
      rw [h1, rstripBy_sep_cons p c t hc]
      by_cases he : rstripBy p t = []
      · rw [if_pos he]
        have hlt : lstripBy p t = [] := by
          unfold lstripBy
          rw [List.dropWhile_eq_nil_iff]
          exact (rstripBy_eq_nil_iff p t).1 he
        rw [hlt]
        rfl
      · rw [if_neg he]
        unfold lstripBy
        rw [List.dropWhile_cons_of_pos hc]
        have hrec := lstrip_rstrip_comm p t
        unfold lstripBy at hrec
        exact hrec

theorem collapseSeps_cons2 (c d : Nat) (t : List Nat) :
    collapseSeps (c :: d :: t) =
      if slugSep c = true then
        (if slugSep d = true then collapseSeps (d :: t)
         else 45 :: collapseSeps (d :: t))
      else c :: collapseSeps (d :: t) := rfl

theorem collapse_sep_cons :
    ∀ (m : List Nat) (c : Nat), slugSep c = true →
    collapseSeps (c :: m) = 45 :: collapseSeps (m.dropWhile slugSep)
  | [], c, hc => by simp [collapseSeps, hc]
  | d :: t, c, hc => by
    rw [collapseSeps_cons2 c d t, if_pos hc]
    by_cases hd : slugSep d = true
    · rw [if_pos hd, collapse_sep_cons t d hd, List.dropWhile_cons_of_pos hd]
    · rw [if_neg hd, List.dropWhile_cons_of_neg hd]

theorem collapse_nonsep_cons (m : List Nat) (c : Nat)
    (hc : slugSep c = false) : collapseSeps (c :: m) = c :: collapseSeps m := by
  cases m with
  | nil => simp [collapseSeps, hc]
  | cons d t =>
    rw [collapseSeps_cons2 c d t, if_neg (by simp [hc])]

theorem isHyphen_false_of_nonsep (c : Nat) (h : slugSep c = false) :
    isHyphen c = false := by
  by_cases hc : c = 45
  · subst hc
    exact absurd h (by decide)
  · simp [isHyphen, hc]

theorem strip_hyphen_cons45 (y : List Nat) :
    stripBy isHyphen (45 :: y) = stripBy isHyphen y := by
  unfold stripBy lstripBy
  rw [List.dropWhile_cons_of_pos (by decide)]

theorem strip_collapse_dropWhile (X : List Nat) :
    stripBy isHyphen (collapseSeps (X.dropWhile slugSep)) =
      stripBy isHyphen (collapseSeps X) := by
  cases X with
  | nil => rfl
  | cons d t =>
    by_cases hd : slugSep d = true
    · rw [List.dropWhile_cons_of_pos hd, collapse_sep_cons t d hd,
        strip_hyphen_cons45]
    · rw [List.dropWhile_cons_of_neg hd]

theorem strip_collapse_lead (w X : List Nat)
    (h : ∀ x ∈ w, slugSep x = true) :
    stripBy isHyphen (collapseSeps (w ++ X)) =
      stripBy isHyphen (collapseSeps X) := by
  cases w with
  | nil => rfl
  | cons c w =>
    rw [List.cons_append, collapse_sep_cons (w ++ X) c (h c (by simp)),
      strip_hyphen_cons45,
      dropWhile_append_all slugSep w X (fun y hy => h y (by simp [hy])),
      strip_collapse_dropWhile X]

theorem collapse_append_sep :
    ∀ (n : Nat) (X w : List Nat), X.length ≤ n →
    w ≠ [] → (∀ x ∈ w, slugSep x = true) →
    collapseSeps (X ++ w) = rstripBy isHyphen (collapseSeps X) ++ [45]
  | n, [], w, _, hw, hall => by
    obtain ⟨c, w2, rfl⟩ : ∃ c w2, w = c :: w2 := by
      cases w with
      | nil => exact absurd rfl hw
      | cons c w2 => exact ⟨c, w2, rfl⟩
    rw [List.nil_append, collapse_sep_cons w2 c (hall c (by simp))]
    have hnil : w2.dropWhile slugSep = [] := by
      rw [List.dropWhile_eq_nil_iff]
      exact fun x hx => hall x (by simp [hx])
    rw [hnil]
    rfl
  | 0, _ :: _, _, hlen, _, _ => by simp at hlen
  | n + 1, c :: t, w, hlen, hw, hall => by
    by_cases hc : slugSep c = true
    · rw [List.cons_append, collapse_sep_cons (t ++ w) c hc,
        collapse_sep_cons t c hc]
      by_cases ht : t.dropWhile slugSep = []
      · have htall : ∀ x ∈ t, slugSep x = true := List.dropWhile_eq_nil_iff.1 ht
        have htw : (t ++ w).dropWhile slugSep = [] := by
          rw [dropWhile_append_all slugSep t w htall]
          rw [List.dropWhile_eq_nil_iff]
          exact hall
        rw [htw, ht]
        rfl
      · have htw : (t ++ w).dropWhile slugSep = t.dropWhile slugSep ++ w := by
          rw [dropWhile_append_cases]
          rw [if_neg (by simpa using ht)]
        rw [htw]
        have hlen2 : (t.dropWhile slugSep).length ≤ n := by
          have h1 : (t.dropWhile slugSep).length ≤ t.length :=
            (List.dropWhile_suffix slugSep).sublist.length_le
          simp only [List.length_cons] at hlen
          omega
        rw [collapse_append_sep n (t.dropWhile slugSep) w hlen2 hw hall]
        obtain ⟨a, s, ha⟩ : ∃ a s, t.dropWhile slugSep = a :: s := by
          cases hcase : t.dropWhile slugSep with
          | nil => exact absurd hcase ht
          | cons a s => exact ⟨a, s, rfl⟩
        have hna : slugSep a = false := dropWhile_head_false slugSep t a s ha
        rw [ha, collapse_nonsep_cons s a hna]
        have hnh : isHyphen a = false := isHyphen_false_of_nonsep a hna
        have hrs : rstripBy isHyphen (45 :: a :: collapseSeps s) =
            45 :: rstripBy isHyphen (a :: collapseSeps s) := by
          rw [rstripBy_sep_cons isHyphen 45 _ (by decide)]
          rw [if_neg (by
            rw [rstripBy_cons_neg isHyphen a _ hnh]
            simp)]
        rw [hrs]
        rfl
    · have hcf : slugSep c = false := by
        cases hcb : slugSep c
        · rfl
        · exact absurd hcb hc
      rw [List.cons_append, collapse_nonsep_cons (t ++ w) c hcf,
        collapse_nonsep_cons t c hcf]
      have hnh : isHyphen c = false := isHyphen_false_of_nonsep c hcf
      cases t with
      | nil =>
        rw [List.nil_append]
        have hbase := collapse_append_sep n [] w (by simp) hw hall
        rw [List.nil_append] at hbase
        have hw45 : collapseSeps w = [45] := by
          rw [hbase]
          rfl
        rw [hw45]
        rw [show collapseSeps ([] : List Nat) = [] from rfl]
        rw [rstripBy_cons_neg isHyphen c [] hnh]
        rfl
      | cons d s =>
        have hlen2 : (d :: s).length ≤ n := by
          simp only [List.length_cons] at hlen ⊢
          omega
        rw [collapse_append_sep n (d :: s) w hlen2 hw hall]
        rw [rstripBy_cons_neg isHyphen c _ hnh]
        rfl

theorem strip_collapse_trail (X w : List Nat)
    (hall : ∀ x ∈ w, slugSep x = true) :
    stripBy isHyphen (collapseSeps (X ++ w)) =
      stripBy isHyphen (collapseSeps X) := by
  cases hwcase : w with
  | nil => simp
  | cons c w2 =>
    rw [← hwcase]
    rw [collapse_append_sep X.length X w le_rfl (by rw [hwcase]; simp) hall]
    by_cases hv : lstripBy isHyphen (rstripBy isHyphen (collapseSeps X)) = []
    · have hvall : ∀ x ∈ rstripBy isHyphen (collapseSeps X),
          isHyphen x = true := by
        have hv2 := hv
        unfold lstripBy at hv2
        exact List.dropWhile_eq_nil_iff.1 hv2
      have hvnil : rstripBy isHyphen (collapseSeps X) = [] := by
        by_contra hne
        exact rstripBy_not_all isHyphen (collapseSeps X) hne hvall
      have hzall : ∀ x ∈ collapseSeps X, isHyphen x = true :=
        (rstripBy_eq_nil_iff isHyphen (collapseSeps X)).1 hvnil
      rw [hvnil]
      unfold stripBy lstripBy
      rw [List.dropWhile_eq_nil_iff.2 hzall]
      rfl
    · have hl : lstripBy isHyphen
          (rstripBy isHyphen (collapseSeps X) ++ [45]) =
          lstripBy isHyphen (rstripBy isHyphen (collapseSeps X)) ++ [45] := by
        unfold lstripBy
        rw [dropWhile_append_cases]
        rw [if_neg (by
          unfold lstripBy at hv
          simpa using hv)]
      unfold stripBy
      rw [hl, rstripBy_append_pos isHyphen _ 45 (by decide)]
      rw [lstrip_rstrip_comm isHyphen (collapseSeps X)]
      rw [rstripBy_idem]

theorem charEq_lower (n : Nat) :
    slugAllowedSpec (asciiLowerNat n) = slugAllowed (asciiLowerNat n) := by
  have hbool : ∀ a b : Bool, (a = true ↔ b = true) → a = b := by decide
  apply hbool
  unfold slugAllowedSpec slugAllowed specAlnum pyWS asciiLowerNat
  by_cases h : 65 ≤ n ∧ n ≤ 90
  · rw [if_pos h]
    constructor <;> intro h2 <;>
      (simp only [Bool.or_eq_true, decide_eq_true_eq] at h2 ⊢; omega)
  · rw [if_neg h]
    constructor <;> intro h2 <;>
      (simp only [Bool.or_eq_true, decide_eq_true_eq] at h2 ⊢; omega)

theorem ws_allowed (n : Nat) (h : pyWS n = true) : slugAllowed n = true := by
  unfold slugAllowed
  rw [h]
  simp

theorem ws_sep (n : Nat) (h : pyWS n = true) : slugSep n = true := by
  unfold slugSep
  rw [h]
  simp

theorem scf_dropWhile (l : List Nat) :
    stripBy isHyphen (collapseSeps (l.filter slugAllowed)) =
      stripBy isHyphen (collapseSeps ((l.dropWhile pyWS).filter slugAllowed)) := by
  conv_lhs => rw [← List.takeWhile_append_dropWhile pyWS l]
  rw [List.filter_append]
  rw [show (l.takeWhile pyWS).filter slugAllowed = l.takeWhile pyWS from
    List.filter_eq_self.2 (fun x hx => ws_allowed x (List.mem_takeWhile_imp hx))]
  exact strip_collapse_lead (l.takeWhile pyWS) _
    (fun x hx => ws_sep x (List.mem_takeWhile_imp hx))

theorem scf_rstrip (l : List Nat) :
    stripBy isHyphen (collapseSeps (l.filter slugAllowed)) =
      stripBy isHyphen (collapseSeps ((rstripBy pyWS l).filter slugAllowed)) := by
  have hdecomp : l = rstripBy pyWS l ++ (l.reverse.takeWhile pyWS).reverse := by
    calc l = l.reverse.reverse := (List.reverse_reverse l).symm
      _ = (l.reverse.takeWhile pyWS ++ l.reverse.dropWhile pyWS).reverse := by
          rw [List.takeWhile_append_dropWhile]
      _ = (l.reverse.dropWhile pyWS).reverse ++
            (l.reverse.takeWhile pyWS).reverse := by
          rw [List.reverse_append]
      _ = rstripBy pyWS l ++ (l.reverse.takeWhile pyWS).reverse := rfl
  conv_lhs => rw [hdecomp]
  rw [List.filter_append]
  rw [show ((l.reverse.takeWhile pyWS).reverse).filter slugAllowed =
      (l.reverse.takeWhile pyWS).reverse from
    List.filter_eq_self.2 (fun x hx => ws_allowed x
      (List.mem_takeWhile_imp (List.mem_reverse.1 hx)))]
  exact strip_collapse_trail _ _ (fun x hx => ws_sep x
    (List.mem_takeWhile_imp (List.mem_reverse.1 hx)))

theorem create_slug_eq_spec (name : List Nat) :
    create_slug_spec name = create_slug name := by
  unfold create_slug_spec create_slug
  have hfilter : (name.map asciiLowerNat).filter slugAllowedSpec =
      (name.map asciiLowerNat).filter slugAllowed :=
    List.filter_congr (fun x hx => by
      obtain ⟨y, _, rfl⟩ := List.mem_map.1 hx
      exact charEq_lower y)
  rw [hfilter]
  rw [scf_dropWhile (name.map asciiLowerNat)]
  rw [scf_rstrip ((name.map asciiLowerNat).dropWhile pyWS)]
  rfl

/-! ### Claim C10: slug generation -/

/-- C10: for every business name, the slug produced by `create_slug` is
exactly the claim pipeline (lower-case, strip code points that are not
alphanumerics, whitespace or hyphens, collapse runs of whitespace,
underscores and hyphens to a single hyphen, trim hyphens); in particular
the spec example business name (code points of the name M-i-k-e,
apostrophe, s, space, F-i-l-e, space, S-y-n-c, exclamation mark)
normalizes to the code points of mikes-file-sync. -/
theorem c10_slug_generation :
    (∀ (name : List Nat), create_slug_spec name = create_slug name) ∧
    create_slug
        [77, 105, 107, 101, 39, 115, 32, 70, 105, 108, 101, 32, 83, 121,
         110, 99, 33] =
      [109, 105, 107, 101, 115, 45, 102, 105, 108, 101, 45, 115, 121, 110,
       99] :=
  ⟨create_slug_eq_spec, by decide⟩

end MarketingScraper
